import Mathlib

/-!
Verification of the Warriors PS2 DFF importer (`RawDFFParser.py`).

The script is embedded shallowly: the input file is a byte buffer
(`List Nat`, each entry a byte value), the file cursor is an explicit
natural-number position, and every `struct.unpack` read on too few bytes
is an `Option`/`Except` failure, matching the Python exception behavior.
Machine integers are modelled as `Int`/`Nat` with explicit two's
complement decoding; vertex coordinates are exact rationals, which is
faithful because every decoded coordinate is an `Int16` times `1/128`,
a value that IEEE double arithmetic (used by Python) represents and
compares exactly.
-/

/-- Read one byte, as `BR.read_u8`: fails iff the position is past the end. -/
def readU8 (buf : List Nat) (pos : Nat) : Option Nat :=
  buf[pos]?

/-- Read a little-endian signed 16-bit integer, as `BR.read_i16`. -/
def readI16 (buf : List Nat) (pos : Nat) : Option Int :=
  match buf[pos]?, buf[pos+1]? with
  | some b0, some b1 =>
    let n := b0 + 256 * b1
    some (if n < 32768 then (n : Int) else (n : Int) - 65536)
  | _, _ => none

/-- Read a little-endian unsigned 32-bit integer, as `BR.read_u32`. -/
def readU32 (buf : List Nat) (pos : Nat) : Option Nat :=
  match buf[pos]?, buf[pos+1]?, buf[pos+2]?, buf[pos+3]? with
  | some b0, some b1, some b2, some b3 =>
    some (b0 + 256 * b1 + 65536 * b2 + 16777216 * b3)
  | _, _, _, _ => none

/-- Read a little-endian signed 32-bit integer, as `BR.read_i32`. -/
def readI32 (buf : List Nat) (pos : Nat) : Option Int :=
  match buf[pos]?, buf[pos+1]?, buf[pos+2]?, buf[pos+3]? with
  | some b0, some b1, some b2, some b3 =>
    let n := b0 + 256 * b1 + 65536 * b2 + 16777216 * b3
    some (if n < 2147483648 then (n : Int) else (n : Int) - 4294967296)
  | _, _, _, _ => none

/-- The four little-endian bytes of a signed 32-bit integer, as
`struct.pack(endian + "i", target_id)` in `find_chunk_positions`. -/
def pack_i32le (v : Int) : List Nat :=
  let n := (v % 4294967296).toNat
  [n % 256, n / 256 % 256, n / 65536 % 256, n / 16777216 % 256]

/-- The `while True: idx = chunk.find(pattern, start)` scan of
`find_chunk_positions`: record each occurrence of `pat`, resuming the
search `pat.length` bytes after a match (non-overlapping scan). `off`
is the absolute offset of the head of the remaining buffer. -/
def scanPat (pat : List Nat) : List Nat → Nat → List Nat
  | [], _ => []
  | b :: rest, off =>
    if pat.isPrefixOf (b :: rest) then
      off :: scanPat pat (List.drop (pat.length - 1) rest) (off + pat.length)
    else
      scanPat pat rest (off + 1)
termination_by l _ => l.length
decreasing_by
  · simp only [List.length_cons, List.length_drop]; omega
  · simp only [List.length_cons]; omega

/-- `find_chunk_positions`: offsets of the 4-byte little-endian pattern of
`target_id` in the whole buffer. -/
def find_chunk_positions (buf : List Nat) (target_id : Int) : List Nat :=
  scanPat (pack_i32le target_id) buf 0

/-- The byte pattern `pat` occurs at offset `k` of `buf` (the bytes of
`pat` match `buf` starting at index `k`). -/
def occursAt (pat buf : List Nat) (k : Nat) : Prop :=
  pat.isPrefixOf (buf.drop k) = true

instance (pat buf : List Nat) (k : Nat) : Decidable (occursAt pat buf k) := by
  unfold occursAt; infer_instance

/-- One material-split record of the BinMeshPLG section, as built by
`parse_binmesh_plg` (`VertexIndices` is `None` when no explicit index
array is read). -/
structure BinMeshEntry where
  iIndexCount : Int
  iMaterialIndex : Int
  VertexIndices : Option (List Int)
deriving DecidableEq, Repr

/-- The dictionary returned by `parse_binmesh_plg`; `section_size` and
`section_offset` keys are only present (`some`) on the non-degenerate
path, exactly as in the Python dict. -/
structure BinMeshResult where
  iMaterialSplitCount : Int
  binMeshes : List BinMeshEntry
  section_size : Option Int
  section_offset : Option Nat
deriving DecidableEq, Repr

/-- The guarded `for _ in range(iIndexCount): try ... except: break` loop
reading explicit vertex indices: reads up to `k` 32-bit integers, keeping
the prefix read so far when a read fails. Returns the list and the cursor
position after the last successful read. -/
def readIdxListAux (buf : List Nat) : Nat → Nat → List Int × Nat
  | 0, pos => ([], pos)
  | k+1, pos =>
    match readI32 buf pos with
    | none => ([], pos)
    | some v =>
      let r := readIdxListAux buf k (pos + 4)
      (v :: r.1, r.2)

/-- The `for i in range(iMaterialSplitCount)` loop of `parse_binmesh_plg`:
reads `n` split records starting at `pos`. The two leading 32-bit fields
of each split are unguarded (failure aborts the parse); the optional
explicit index list is read via `readIdxListAux` when the declared section
size differs from `12 + 8 * splitCount`. -/
def binMeshLoop (buf : List Nat) (size splitCount : Int) :
    Nat → Nat → Option (List BinMeshEntry)
  | 0, _ => some []
  | n+1, pos =>
    match readI32 buf pos, readI32 buf (pos+4) with
    | some ic, some mi =>
      let step : BinMeshEntry × Nat :=
        if size ≠ 12 + 8 * splitCount then
          let r := readIdxListAux buf ic.toNat (pos + 8)
          ({ iIndexCount := ic, iMaterialIndex := mi, VertexIndices := some r.1 }, r.2)
        else
          ({ iIndexCount := ic, iMaterialIndex := mi, VertexIndices := none }, pos + 8)
      match binMeshLoop buf size splitCount n step.2 with
      | some rest => some (step.1 :: rest)
      | none => none
    | _, _ => none

/-- `parse_binmesh_plg`: reads the section header at `offset`; a declared
section size of 12 returns the empty header immediately; otherwise reads
faceType, splitCount, totalFaceCount and the split records. `none` models
an uncaught Python exception from an unguarded truncated read. -/
def parse_binmesh_plg (buf : List Nat) (offset : Nat) : Option BinMeshResult :=
  match readI32 buf offset, readI32 buf (offset+4), readI32 buf (offset+8) with
  | some _sid, some iSectionSize, some _rwv =>
    if iSectionSize = 12 then
      some { iMaterialSplitCount := 0, binMeshes := [],
             section_size := none, section_offset := none }
    else
      match readI32 buf (offset+12), readI32 buf (offset+16), readI32 buf (offset+20) with
      | some _faceType, some iMaterialSplitCount, some _totalFaceCount =>
        match binMeshLoop buf iSectionSize iMaterialSplitCount
            iMaterialSplitCount.toNat (offset+24) with
        | some meshes =>
          some { iMaterialSplitCount := iMaterialSplitCount, binMeshes := meshes,
                 section_size := some iSectionSize, section_offset := some offset }
        | none => none
      | _, _, _ => none
  | _, _, _ => none

/-- A decoded vertex: the three `Int16` components times `SCALE`, held as
exact rationals (`mathutils.Vector` with exact dyadic coordinates). -/
structure Vertex where
  x : Rat
  y : Rat
  z : Rat
deriving DecidableEq, Repr

/-- `SCALE = 1.0 / 128.0`, exact in IEEE doubles. -/
def SCALE : Rat := 1 / 128

/-- `DMATAG_VERTEX_4_INT16 = 0x6D008000`, the only vertex encoding handled. -/
def DMATAG_VERTEX_4_INT16 : Nat := 0x6D008000

/-- Decode one vertex at `pos`: three signed 16-bit reads scaled by `SCALE`.
The trailing 2-byte pad is skipped without being read, so a vertex at the
very end of the buffer decodes even if its pad bytes are missing. -/
def readVertex (buf : List Nat) (pos : Nat) : Option Vertex :=
  match readI16 buf pos, readI16 buf (pos+2), readI16 buf (pos+4) with
  | some x, some y, some z =>
    some { x := (x : Rat) * SCALE, y := (y : Rat) * SCALE, z := (z : Rat) * SCALE }
  | _, _, _ => none

/-- The `for vi in range(idxcount)` vertex loop: read up to `k` vertices,
8 bytes apart (6 data bytes plus the 2-byte pad), stopping early and
keeping the prefix when a 16-bit read fails. -/
def readVertsAux (buf : List Nat) : Nat → Nat → List Vertex
  | 0, _ => []
  | k+1, pos =>
    match readVertex buf pos with
    | none => []
    | some v => v :: readVertsAux buf k (pos + 8)

/-- Read `binmesh.iIndexCount` vertices starting at `pos`; a negative
declared count yields no iterations, as Python's `range`. -/
def readVerts (buf : List Nat) (pos : Nat) (n : Int) : List Vertex :=
  readVertsAux buf n.toNat pos

/-- The duplicate-vertex check of the triangle loop: exact equality of all
three coordinates. -/
def dupVert (a b : Vertex) : Bool :=
  a.x == b.x && a.y == b.y && a.z == b.z

/-- One iteration of the triangle-reconstruction loop at index `i`: skip
the candidate `(i, i-1, i-2)` when any two of the referenced vertices are
exactly equal, otherwise emit winding `[i, i-2, i-1]` for even `i` and
`[i-1, i-2, i]` for odd `i`. -/
def triAt (vs : List Vertex) (i : Nat) : List Nat :=
  let vi := vs.getD i { x := 0, y := 0, z := 0 }
  let vi1 := vs.getD (i-1) { x := 0, y := 0, z := 0 }
  let vi2 := vs.getD (i-2) { x := 0, y := 0, z := 0 }
  if dupVert vi vi1 || dupVert vi vi2 || dupVert vi1 vi2 then
    []
  else if i % 2 == 0 then
    [i, i-2, i-1]
  else
    [i-1, i-2, i]

/-- The `for i in range(2, vc)` loop: `k` remaining iterations starting at
index `i`, appending each iteration's emitted indices. -/
def stripGoAux (vs : List Vertex) : Nat → Nat → List Nat
  | 0, _ => []
  | k+1, i => triAt vs i ++ stripGoAux vs k (i + 1)

/-- Strip reconstruction (lines 192-208 of the source): the flat triangle
index list produced from a decoded vertex sequence. -/
def stripTriangles (vs : List Vertex) : List Nat :=
  stripGoAux vs (vs.length - 2) 2

/-- Error outcomes of `parse_native_data_plg`: the two named structural
`raise` statements, and `uncaught` for any exception escaping from an
unguarded read (Python `struct.error` / `IndexError`). -/
inductive Err where
  | missingStructId
  | unsupportedPlatform
  | uncaught
deriving DecidableEq, Repr

/-- One decoded material split: material index, optional vertex list
(present exactly when a supported vertex DMA entry was seen), and the
reconstructed flat triangle list. -/
structure MaterialSplit where
  iMaterialIndex : Int
  Vertices : Option (List Vertex)
  Triangles : List Nat
deriving DecidableEq, Repr

/-- The `while (br.pos() < lDMASectionEnd) and (not bReachedEnd)` DMA-entry
loop of one split. Each iteration: skip 3 bytes, read the entry id (guarded:
failure breaks the loop), then read the data offset and type tag
(unguarded: failure aborts with `uncaught`). An id of `0x30` with the
supported masked type replaces the vertex list wholesale with the block
decoded at `sectionStart + offset*16` and skips the 16-byte trailer; an id
of `0x10` ends the stream; other ids just continue. Returns the surviving
vertex list and the final cursor. -/
def dmaLoop (buf : List Nat) (icount : Int) (sectionStart dmaEnd : Nat)
    (verts : Option (List Vertex)) (pos : Nat) :
    Except Err (Option (List Vertex) × Nat) :=
  if h : pos < dmaEnd then
    match readU8 buf (pos+3) with
    | none => .ok (verts, pos+3)
    | some bDMAId =>
      match readU32 buf (pos+4) with
      | none => .error .uncaught
      | some uiDataOffset =>
        match readU32 buf (pos+12) with
        | none => .error .uncaught
        | some uiDataType =>
          let lDataPosition := sectionStart + uiDataOffset * 16
          let ty := uiDataType &&& 0xFF00FFFF
          if bDMAId = 0x30 then
            let verts' := if ty = DMATAG_VERTEX_4_INT16 then
                some (readVerts buf lDataPosition icount)
              else verts
            dmaLoop buf icount sectionStart dmaEnd verts' (pos + 32)
          else if bDMAId = 0x10 then
            .ok (verts, pos + 16)
          else
            dmaLoop buf icount sectionStart dmaEnd verts (pos + 16)
  else
    .ok (verts, pos)
termination_by dmaEnd - pos
decreasing_by
  · omega
  · omega

/-- One iteration of the per-split loop of `parse_native_data_plg` (lines
139-211): read the split size, compute `lSectionStart = pos + 8`, read the
DMA word count at `pos + 12`, run the DMA-entry loop from `lSectionStart`,
reconstruct triangles, and return the split together with the resync
cursor `lSectionEnd = lSectionStart + uiSplitSize` (the DMA loop's final
cursor is discarded, as by `br.seek(lSectionEnd, 0)`). `entry` is the
corresponding BinMesh split; `none` models an out-of-range list access
(Python `IndexError`). -/
def processSplit (buf : List Nat) (entry : Option BinMeshEntry) (pos : Nat) :
    Except Err (MaterialSplit × Nat) :=
  match readU32 buf pos with
  | none => .error .uncaught
  | some uiSplitSize =>
    let lSectionStart := pos + 8
    match readU32 buf (pos+12) with
    | none => .error .uncaught
    | some dmaWords =>
      let uiDMASize := dmaWords * 16
      let lDMASectionEnd := lSectionStart + uiDMASize
      let lSectionEnd := lSectionStart + uiSplitSize
      match entry with
      | none => .error .uncaught
      | some e =>
        match dmaLoop buf e.iIndexCount lSectionStart lDMASectionEnd none lSectionStart with
        | .error err => .error err
        | .ok (vertsOpt, _) =>
          let tris := match vertsOpt with
            | some vs => stripTriangles vs
            | none => []
          .ok ({ iMaterialIndex := e.iMaterialIndex, Vertices := vertsOpt,
                 Triangles := tris }, lSectionEnd)

/-- The `for split_idx in range(matcount)` loop: process `remaining` splits,
split `i` first, threading the resync cursor. An error in any split aborts
the whole parse, discarding earlier splits, as a Python exception would. -/
def splitLoop (buf : List Nat) (meshes : List BinMeshEntry) :
    Nat → Nat → Nat → Except Err (List MaterialSplit)
  | 0, _, _ => .ok []
  | remaining+1, i, pos =>
    match processSplit buf meshes[i]? pos with
    | .error e => .error e
    | .ok (ms, pos') =>
      match splitLoop buf meshes remaining (i+1) pos' with
      | .error e => .error e
      | .ok rest => .ok (ms :: rest)

/-- `parse_native_data_plg`: reads the section header at `offset`, demands
the nested Struct id `0x1` (else the named `missingStructId` error), treats
a nested struct size of 4 as empty, demands platform `0x4` (else the named
`unsupportedPlatform` error), then decodes every BinMesh split. -/
def parse_native_data_plg (buf : List Nat) (offset : Nat)
    (binmesh : BinMeshResult) : Except Err (List MaterialSplit) :=
  match readI32 buf offset, readI32 buf (offset+4), readI32 buf (offset+8),
        readI32 buf (offset+12) with
  | some _sid, some _iSectionSize, some _rwv, some maybeStruct =>
    if maybeStruct ≠ 1 then .error .missingStructId
    else
      match readI32 buf (offset+16), readI32 buf (offset+20) with
      | some structSectionSize, some _structRwv =>
        if structSectionSize = 4 then .ok []
        else
          match readU32 buf (offset+24) with
          | some uiPlatform =>
            if uiPlatform ≠ 4 then .error .unsupportedPlatform
            else
              splitLoop buf binmesh.binMeshes binmesh.iMaterialSplitCount.toNat
                0 (offset+28)
          | none => .error .uncaught
      | _, _ => .error .uncaught
  | _, _, _, _ => .error .uncaught

/-- A well-formed single-split native block: split size 96, DMA word count
2 (stream bytes 8-39), one vertex DMA entry (id `0x30`, data offset 2,
type `0x6D008000`), and three distinct vertices at bytes 40-63. -/
def goodSplitBuf : List Nat :=
  [96,0,0,0, 0,0,0,0, 0,0,0, 48, 2,0,0,0, 0,0,0,0, 0x00,0x80,0x00,0x6D,
   0,0,0,0, 0,0,0,0, 0,0,0,0, 0,0,0,0,
   128,0, 0,0, 0,0, 0,0,
   0,0, 128,0, 0,0, 0,0,
   0,0, 0,0, 128,0, 0,0]

/-- The vertices encoded in `goodSplitBuf` at byte 40. -/
def goodVerts : List Vertex :=
  [{ x := 1, y := 0, z := 0 }, { x := 0, y := 1, z := 0 }, { x := 0, y := 0, z := 1 }]

/-- The BinMesh entry matching `goodSplitBuf`: three declared indices. -/
def goodEntry : BinMeshEntry :=
  { iIndexCount := 3, iMaterialIndex := 5, VertexIndices := none }

/-- The material split decoded from `goodSplitBuf`. -/
def goodMS : MaterialSplit :=
  { iMaterialIndex := 5, Vertices := some goodVerts, Triangles := [2, 0, 1] }

/-- A native-data section whose structure marker is `0x1` and platform is
`0x4`, but whose single split is truncated inside a DMA entry header: the
entry id byte (byte 39) and the 4-byte data offset (bytes 40-43) are
present, but the buffer (44 bytes) ends before the entry's type tag at
bytes 48-51, hitting the unguarded `read_u32`. -/
def c2buf : List Nat :=
  [0x10,5,0,0, 0,0,0,0, 0,0,0,0, 1,0,0,0, 64,0,0,0, 0,0,0,0, 4,0,0,0,
   64,0,0,0, 0,0,0,0, 0,0,0,0, 4,0,0,0]

/-- A one-split BinMesh header used as input for `c2buf`. -/
def c2bm : BinMeshResult :=
  { iMaterialSplitCount := 1,
    binMeshes := [{ iIndexCount := 5, iMaterialIndex := 0, VertexIndices := none }],
    section_size := none, section_offset := none }

/-- A BinMesh section with declared size 36 (so explicit indices are read),
one split with `iIndexCount = 3`, but the buffer ends after a single
explicit index value: the guarded index loop keeps the 1-element prefix. -/
def c3buf : List Nat :=
  [14,5,0,0, 36,0,0,0, 0,0,0,0, 0,0,0,0, 1,0,0,0, 0,0,0,0,
   3,0,0,0, 7,0,0,0, 9,0,0,0]

/-- The parse result of `c3buf`. -/
def c3res : BinMeshResult :=
  { iMaterialSplitCount := 1,
    binMeshes := [{ iIndexCount := 3, iMaterialIndex := 7, VertexIndices := some [9] }],
    section_size := some 36, section_offset := some 0 }

/-- Claim C3's length assertion, stated of a parse result: every present
explicit index list has length equal to its split's declared index count. -/
def claimFullIdxLists (r : BinMeshResult) : Prop :=
  ∀ m ∈ r.binMeshes,
    match m.VertexIndices with
    | some l => l.length = m.iIndexCount.toNat
    | none => True

instance (m : BinMeshEntry) :
    Decidable (match m.VertexIndices with
      | some l => l.length = m.iIndexCount.toNat
      | none => True) := by
  cases m.VertexIndices <;> simp <;> infer_instance

instance (r : BinMeshResult) : Decidable (claimFullIdxLists r) := by
  unfold claimFullIdxLists; exact List.decidableBAll _ _

/-- The 6 data bytes of the signed triplet `(256, -128, 0)` followed by two
arbitrary pad bytes. -/
def c8buf : List Nat := [0, 1, 128, 255, 0, 0, 170, 187]

/-- A buffer holding the pattern of id `0x50E` at offsets 0 and 5. -/
def c4buf : List Nat := [14, 5, 0, 0, 9, 14, 5, 0, 0]

/-! ## Helper lemmas -/

lemma dupVert_eq_true_iff (a b : Vertex) : dupVert a b = true ↔ a = b := by
  cases a; cases b
  simp [dupVert, Vertex.mk.injEq, and_assoc]

lemma dupVert_eq_false {a b : Vertex} (h : a ≠ b) : dupVert a b = false :=
  Bool.eq_false_iff.mpr (fun ht => h ((dupVert_eq_true_iff a b).mp ht))

lemma stripGoAux_eq (vs : List Vertex) :
    ∀ k i : Nat, stripGoAux vs k i = ((List.range' i k).map (triAt vs)).flatten := by
  intro k
  induction k with
  | zero => intro i; simp [stripGoAux]
  | succ k ih => intro i; simp [stripGoAux, List.range'_succ, ih]

lemma readVertsAux_len (buf : List Nat) :
    ∀ k pos, (readVertsAux buf k pos).length ≤ k := by
  intro k
  induction k with
  | zero => intro pos; simp [readVertsAux]
  | succ k ih =>
    intro pos
    unfold readVertsAux
    cases readVertex buf pos with
    | none => simp
    | some v => simpa using ih (pos + 8)

lemma readVerts_len (buf : List Nat) (pos : Nat) (n : Int) :
    (readVerts buf pos n).length ≤ n.toNat :=
  readVertsAux_len buf n.toNat pos

lemma readVertex_some (buf : List Nat) (pos : Nat) (x y z : Int)
    (hx : readI16 buf pos = some x) (hy : readI16 buf (pos+2) = some y)
    (hz : readI16 buf (pos+4) = some z) :
    readVertex buf pos =
      some { x := (x : Rat) / 128, y := (y : Rat) / 128, z := (z : Rat) / 128 } := by
  unfold readVertex
  rw [hx, hy, hz]
  have hs : ∀ w : Int, (w : Rat) * SCALE = (w : Rat) / 128 := by
    intro w; rw [SCALE]; ring
  simp [hs]

lemma goodVertex40 : readVertex goodSplitBuf 40 = some { x := 1, y := 0, z := 0 } := by
  rw [readVertex_some goodSplitBuf 40 128 0 0 (by decide) (by decide) (by decide)]
  norm_num [Vertex.mk.injEq]

lemma goodVertex48 : readVertex goodSplitBuf 48 = some { x := 0, y := 1, z := 0 } := by
  rw [readVertex_some goodSplitBuf 48 0 128 0 (by decide) (by decide) (by decide)]
  norm_num [Vertex.mk.injEq]

lemma goodVertex56 : readVertex goodSplitBuf 56 = some { x := 0, y := 0, z := 1 } := by
  rw [readVertex_some goodSplitBuf 56 0 0 128 (by decide) (by decide) (by decide)]
  norm_num [Vertex.mk.injEq]

lemma goodVerts_eq : readVerts goodSplitBuf 40 3 = goodVerts := by
  simp only [readVerts, Int.toNat_ofNat, readVertsAux, goodVertex40]
  norm_num [goodVertex48, goodVertex56, readVertsAux, goodVerts]

lemma goodSplit_dmaLoop : dmaLoop goodSplitBuf 3 8 40 none 8 = .ok (some goodVerts, 40) := by
  have h8 : readU8 goodSplitBuf 11 = some 48 := by decide
  have ha : readU32 goodSplitBuf 12 = some 2 := by decide
  have hb : readU32 goodSplitBuf 20 = some 0x6D008000 := by decide
  have hm : (0x6D008000 : Nat) &&& 0xFF00FFFF = DMATAG_VERTEX_4_INT16 := by decide
  rw [dmaLoop.eq_def]
  simp only [show (8:Nat)+3 = 11 from rfl, show (8:Nat)+4 = 12 from rfl,
    show (8:Nat)+12 = 20 from rfl, h8, ha, hb]
  norm_num [hm, goodVerts_eq]
  rw [dmaLoop.eq_def]
  norm_num

lemma goodSplit_processSplit :
    processSplit goodSplitBuf (some goodEntry) 0 = .ok (goodMS, 104) := by
  have h1 : readU32 goodSplitBuf 0 = some 96 := by decide
  have h2 : readU32 goodSplitBuf 12 = some 2 := by decide
  unfold processSplit
  rw [h1]
  simp only [show (0:Nat)+12 = 12 from rfl, h2]
  simp only [goodEntry, show (0:Nat)+8 = 8 from rfl, show (8:Nat)+2*16 = 40 from rfl,
    show (8:Nat)+96 = 104 from rfl, goodSplit_dmaLoop]
  norm_num [goodMS]
  decide

lemma dmaLoop_len (buf : List Nat) (ic : Int) (start dEnd : Nat) :
    ∀ fuel pos (vo : Option (List Vertex)),
      dEnd - pos ≤ fuel →
      (∀ vs0, vo = some vs0 → vs0.length ≤ ic.toNat) →
      ∀ vs c, dmaLoop buf ic start dEnd vo pos = .ok (some vs, c) →
      vs.length ≤ ic.toNat := by
  intro fuel
  induction fuel with
  | zero =>
    intro pos vo hf hin vs c h
    rw [dmaLoop.eq_def] at h
    rw [dif_neg (by omega)] at h
    simp only [Except.ok.injEq, Prod.mk.injEq] at h
    exact hin vs h.1
  | succ fuel ih =>
    intro pos vo hf hin vs c h
    rw [dmaLoop.eq_def] at h
    by_cases hlt : pos < dEnd
    · rw [dif_pos hlt] at h
      split at h
      · simp only [Except.ok.injEq, Prod.mk.injEq] at h
        exact hin vs h.1
      · split at h
        · exact absurd h (by simp)
        · split at h
          · exact absurd h (by simp)
          · simp only at h
            split at h
            · split at h
              · refine ih (pos+32) _ (by omega) ?_ vs c h
                intro vs0 hv0
                injection hv0 with hh
                rw [← hh]
                exact readVerts_len _ _ _
              · exact ih (pos+32) vo (by omega) hin vs c h
            · split at h
              · simp only [Except.ok.injEq, Prod.mk.injEq] at h
                exact hin vs h.1
              · exact ih (pos+16) vo (by omega) hin vs c h
    · rw [dif_neg hlt] at h
      simp only [Except.ok.injEq, Prod.mk.injEq] at h
      exact hin vs h.1

lemma getElem?_append_some {l ext : List Nat} {i b : Nat} (h : l[i]? = some b) :
    (l ++ ext)[i]? = some b := by
  have hi : i < l.length := by
    by_contra hc
    rw [List.getElem?_eq_none (by omega)] at h
    exact absurd h (by simp)
  rw [List.getElem?_append_left hi]
  exact h

lemma readI16_append (buf ext : List Nat) (p : Nat) (v : Int)
    (h : readI16 buf p = some v) : readI16 (buf ++ ext) p = some v := by
  unfold readI16 at h ⊢
  cases h0 : buf[p]? with
  | none => rw [h0] at h; exact absurd h (by simp)
  | some b0 =>
    cases h1 : buf[p+1]? with
    | none => rw [h0, h1] at h; exact absurd h (by simp)
    | some b1 =>
      rw [h0, h1] at h
      rw [getElem?_append_some h0, getElem?_append_some h1]
      exact h

lemma readVertex_append (buf ext : List Nat) (p : Nat) (v : Vertex)
    (h : readVertex buf p = some v) : readVertex (buf ++ ext) p = some v := by
  unfold readVertex at h ⊢
  cases hx : readI16 buf p with
  | none => rw [hx] at h; exact absurd h (by simp)
  | some x =>
    cases hy : readI16 buf (p+2) with
    | none => rw [hx, hy] at h; exact absurd h (by simp)
    | some y =>
      cases hz : readI16 buf (p+4) with
      | none => rw [hx, hy, hz] at h; exact absurd h (by simp)
      | some z =>
        rw [hx, hy, hz] at h
        rw [readI16_append buf ext p x hx, readI16_append buf ext (p+2) y hy,
          readI16_append buf ext (p+4) z hz]
        exact h

lemma readVertsAux_extends (buf ext : List Nat) :
    ∀ k pos, ∃ t, readVertsAux (buf ++ ext) k pos = readVertsAux buf k pos ++ t := by
  intro k
  induction k with
  | zero => intro pos; exact ⟨[], rfl⟩
  | succ k ih =>
    intro pos
    cases hv : readVertex buf pos with
    | none =>
      refine ⟨readVertsAux (buf ++ ext) (k+1) pos, ?_⟩
      simp [readVertsAux, hv]
    | some v =>
      obtain ⟨t, ht⟩ := ih (pos+8)
      exact ⟨t, by simp [readVertsAux, hv, readVertex_append buf ext pos v hv, ht]⟩

lemma readIdxListAux_len_le (buf : List Nat) :
    ∀ k pos, (readIdxListAux buf k pos).1.length ≤ k := by
  intro k
  induction k with
  | zero => intro pos; simp [readIdxListAux]
  | succ k ih =>
    intro pos
    unfold readIdxListAux
    cases readI32 buf pos with
    | none => simp
    | some v => simpa using ih (pos + 4)

lemma readI32_isSome (buf : List Nat) (pos : Nat) (h : pos + 4 ≤ buf.length) :
    ∃ v, readI32 buf pos = some v := by
  unfold readI32
  rw [List.getElem?_eq_getElem (by omega), List.getElem?_eq_getElem (by omega),
    List.getElem?_eq_getElem (by omega), List.getElem?_eq_getElem (by omega)]
  exact ⟨_, rfl⟩

lemma readIdxListAux_full (buf : List Nat) :
    ∀ k pos, pos + 4 * k ≤ buf.length → (readIdxListAux buf k pos).1.length = k := by
  intro k
  induction k with
  | zero => intro pos _; simp [readIdxListAux]
  | succ k ih =>
    intro pos hlen
    obtain ⟨v, hv⟩ := readI32_isSome buf pos (by omega)
    simp only [readIdxListAux, hv, List.length_cons]
    rw [ih (pos + 4) (by omega)]

lemma binMeshLoop_mem (buf : List Nat) (s c : Int) :
    ∀ n pos ms, binMeshLoop buf s c n pos = some ms →
      ∀ m ∈ ms,
        (m.VertexIndices = none ↔ s = 12 + 8 * c)
        ∧ ∀ l, m.VertexIndices = some l → l.length ≤ m.iIndexCount.toNat := by
  intro n
  induction n with
  | zero =>
    intro pos ms h m hm
    simp only [binMeshLoop, Option.some.injEq] at h
    rw [← h] at hm
    exact absurd hm (by simp)
  | succ n ih =>
    intro pos ms h m hm
    unfold binMeshLoop at h
    split at h
    · rename_i o1 o2 ic mi hic hmi
      simp only at h
      split at h
      · rename_i o3 rest hrest
        simp only [Option.some.injEq] at h
        subst h
        by_cases hcond : s ≠ 12 + 8 * c
        · rw [if_pos hcond] at hm hrest
          simp only at hm hrest
          rcases List.mem_cons.mp hm with hme | hmr
          · subst hme
            refine ⟨by simp [hcond], ?_⟩
            intro l hl
            simp only [Option.some.injEq] at hl
            rw [← hl]
            exact readIdxListAux_len_le buf ic.toNat (pos + 8)
          · exact ih _ rest hrest m hmr
        · rw [if_neg hcond] at hm hrest
          simp only at hm hrest
          rcases List.mem_cons.mp hm with hme | hmr
          · subst hme
            refine ⟨?_, ?_⟩
            · simp
              omega
            · intro l hl
              exact absurd hl (by simp)
          · exact ih _ rest hrest m hmr
      · exact absurd h (by simp)
    · exact absurd h (by simp)

lemma scanPat_lb (pat : List Nat) :
    ∀ fuel l off, l.length ≤ fuel → ∀ k ∈ scanPat pat l off, off ≤ k := by
  intro fuel
  induction fuel with
  | zero =>
    intro l off hl k hk
    have hnil : l = [] := List.eq_nil_of_length_eq_zero (Nat.le_zero.mp hl)
    subst hnil
    simp [scanPat] at hk
  | succ fuel ih =>
    intro l off hl k hk
    cases l with
    | nil => simp [scanPat] at hk
    | cons b rest =>
      simp only [scanPat] at hk
      by_cases hp : pat.isPrefixOf (b :: rest)
      · rw [if_pos hp] at hk
        rcases List.mem_cons.mp hk with h | h
        · omega
        · have hlen : (List.drop (pat.length - 1) rest).length ≤ fuel := by
            simp only [List.length_drop]
            simp only [List.length_cons] at hl
            omega
          have := ih _ _ hlen k h
          omega
      · rw [if_neg hp] at hk
        have hlen : rest.length ≤ fuel := by
          simp only [List.length_cons] at hl
          omega
        have := ih rest (off+1) hlen k hk
        omega

lemma scanPat_sound (pat : List Nat) (hp0 : 0 < pat.length) :
    ∀ fuel l off, l.length ≤ fuel → ∀ k ∈ scanPat pat l off,
      ∃ j, k = off + j ∧ pat.isPrefixOf (l.drop j) = true := by
  intro fuel
  induction fuel with
  | zero =>
    intro l off hl k hk
    have hnil : l = [] := List.eq_nil_of_length_eq_zero (Nat.le_zero.mp hl)
    subst hnil
    simp [scanPat] at hk
  | succ fuel ih =>
    intro l off hl k hk
    cases l with
    | nil => simp [scanPat] at hk
    | cons b rest =>
      simp only [scanPat] at hk
      by_cases hp : pat.isPrefixOf (b :: rest)
      · rw [if_pos hp] at hk
        rcases List.mem_cons.mp hk with h | h
        · exact ⟨0, by omega, by simpa using hp⟩
        · have hlen : (List.drop (pat.length - 1) rest).length ≤ fuel := by
            simp only [List.length_drop]
            simp only [List.length_cons] at hl
            omega
          obtain ⟨j', hj', hpre⟩ := ih _ _ hlen k h
          refine ⟨pat.length + j', by omega, ?_⟩
          have heq : (b :: rest).drop (pat.length + j') =
              (List.drop (pat.length - 1) rest).drop j' := by
            rw [List.drop_drop]
            have h2 : pat.length + j' = (j' + (pat.length - 1)) + 1 := by omega
            rw [h2, List.drop_succ_cons]
            congr 1
            omega
          rw [heq]
          exact hpre
      · rw [if_neg hp] at hk
        have hlen : rest.length ≤ fuel := by
          simp only [List.length_cons] at hl
          omega
        obtain ⟨j', hj', hpre⟩ := ih rest (off+1) hlen k hk
        refine ⟨j' + 1, by omega, ?_⟩
        rw [List.drop_succ_cons]
        exact hpre

lemma scanPat_complete (pat : List Nat) (hp0 : 0 < pat.length) :
    ∀ fuel l off, l.length ≤ fuel → ∀ j, pat.isPrefixOf (l.drop j) = true →
      ∃ k ∈ scanPat pat l off, k ≤ off + j ∧ off + j < k + pat.length := by
  intro fuel
  induction fuel with
  | zero =>
    intro l off hl j hocc
    have hnil : l = [] := List.eq_nil_of_length_eq_zero (Nat.le_zero.mp hl)
    subst hnil
    rw [List.drop_nil] at hocc
    cases pat with
    | nil => simp at hp0
    | cons a as => simp [List.isPrefixOf] at hocc
  | succ fuel ih =>
    intro l off hl j hocc
    cases l with
    | nil =>
      rw [List.drop_nil] at hocc
      cases pat with
      | nil => simp at hp0
      | cons a as => simp [List.isPrefixOf] at hocc
    | cons b rest =>
      by_cases hp : pat.isPrefixOf (b :: rest)
      · by_cases hj : j < pat.length
        · refine ⟨off, ?_, by omega, by omega⟩
          simp only [scanPat, if_pos hp]
          exact List.mem_cons_self _ _
        · have hdrop : (b :: rest).drop j =
              (List.drop (pat.length - 1) rest).drop (j - pat.length) := by
            rw [List.drop_drop]
            have h2 : j = ((j - pat.length) + (pat.length - 1)) + 1 := by omega
            conv_lhs => rw [h2]
            rw [List.drop_succ_cons]
            congr 1
            omega
          rw [hdrop] at hocc
          have hlen : (List.drop (pat.length - 1) rest).length ≤ fuel := by
            simp only [List.length_drop]
            simp only [List.length_cons] at hl
            omega
          obtain ⟨k, hkmem, hk1, hk2⟩ := ih _ (off + pat.length) hlen (j - pat.length) hocc
          refine ⟨k, ?_, by omega, by omega⟩
          simp only [scanPat, if_pos hp]
          exact List.mem_cons_of_mem _ hkmem
      · cases j with
        | zero =>
          rw [List.drop_zero] at hocc
          exact absurd hocc (by simpa using hp)
        | succ j' =>
          rw [List.drop_succ_cons] at hocc
          have hlen : rest.length ≤ fuel := by
            simp only [List.length_cons] at hl
            omega
          obtain ⟨k, hkmem, hk1, hk2⟩ := ih rest (off+1) hlen j' hocc
          refine ⟨k, ?_, by omega, by omega⟩
          simp only [scanPat, if_neg hp]
          exact hkmem

lemma scanPat_chain (pat : List Nat) :
    ∀ fuel l off, l.length ≤ fuel →
      List.Chain' (fun a b => a + pat.length ≤ b) (scanPat pat l off) := by
  intro fuel
  induction fuel with
  | zero =>
    intro l off hl
    have hnil : l = [] := List.eq_nil_of_length_eq_zero (Nat.le_zero.mp hl)
    subst hnil
    simp [scanPat]
  | succ fuel ih =>
    intro l off hl
    cases l with
    | nil => simp [scanPat]
    | cons b rest =>
      by_cases hp : pat.isPrefixOf (b :: rest)
      · simp only [scanPat, if_pos hp]
        have hlen : (List.drop (pat.length - 1) rest).length ≤ fuel := by
          simp only [List.length_drop]
          simp only [List.length_cons] at hl
          omega
        rw [List.chain'_cons']
        constructor
        · intro y hy
          exact scanPat_lb pat fuel _ _ hlen y (List.mem_of_mem_head? hy)
        · exact ih _ _ hlen
      · simp only [scanPat, if_neg hp]
        have hlen : rest.length ≤ fuel := by
          simp only [List.length_cons] at hl
          omega
        exact ih rest (off+1) hlen

/-! ## Claims C1, C7, C8, C9 -/

/-- Claim C1: the Strip Reconstructor considers, for each index `i` from 2
to `count-1`, the candidate triangle on vertices `i, i-1, i-2` (the whole
output is the concatenation of the per-`i` emissions `triAt`), a candidate
is skipped exactly when two referenced vertices are equal in all three
coordinates, an emitted candidate has winding `(i, i-2, i-1)` for even `i`
and `(i-1, i-2, i)` for odd `i`; consequently 5 pairwise-distinct vertices
yield exactly the triangles `(2,0,1), (2,1,3), (4,2,3)` and fewer than 3
vertices yield no triangles. -/
theorem strip_reconstructor_correct :
    (∀ vs : List Vertex,
       stripTriangles vs = ((List.range' 2 (vs.length - 2)).map (triAt vs)).flatten)
    ∧ (∀ v0 v1 v2 v3 v4 : Vertex,
        v0 ≠ v1 → v0 ≠ v2 → v0 ≠ v3 → v0 ≠ v4 → v1 ≠ v2 → v1 ≠ v3 → v1 ≠ v4 →
        v2 ≠ v3 → v2 ≠ v4 → v3 ≠ v4 →
        stripTriangles [v0, v1, v2, v3, v4] = [2, 0, 1, 2, 1, 3, 4, 2, 3])
    ∧ (∀ vs : List Vertex, vs.length < 3 → stripTriangles vs = []) := by
  refine ⟨?_, ?_, ?_⟩
  · intro vs
    unfold stripTriangles
    exact stripGoAux_eq vs _ 2
  · intro v0 v1 v2 v3 v4 h01 h02 h03 h04 h12 h13 h14 h23 h24 h34
    have d21 := dupVert_eq_false (Ne.symm h12)
    have d20 := dupVert_eq_false (Ne.symm h02)
    have d10 := dupVert_eq_false (Ne.symm h01)
    have d32 := dupVert_eq_false (Ne.symm h23)
    have d31 := dupVert_eq_false (Ne.symm h13)
    have d43 := dupVert_eq_false (Ne.symm h34)
    have d42 := dupVert_eq_false (Ne.symm h24)
    simp [stripTriangles, stripGoAux, triAt, List.getD,
      d21, d20, d10, d32, d31, d43, d42]
  · intro vs h
    unfold stripTriangles
    have h0 : vs.length - 2 = 0 := by omega
    rw [h0]
    rfl

/-- Witness for C1 at concrete pairwise-distinct vertices and at a
2-vertex list. -/
theorem strip_reconstructor_correct_witness :
    stripTriangles
        [{ x := 0, y := 0, z := 0 }, { x := 1, y := 0, z := 0 },
         { x := 0, y := 1, z := 0 }, { x := 0, y := 0, z := 1 },
         { x := 1, y := 1, z := 0 }] = [2, 0, 1, 2, 1, 3, 4, 2, 3]
    ∧ stripTriangles [{ x := 0, y := 0, z := 0 }, { x := 1, y := 0, z := 0 }] = [] := by
  constructor
  · exact strip_reconstructor_correct.2.1 _ _ _ _ _ (by decide) (by decide)
      (by decide) (by decide) (by decide) (by decide) (by decide) (by decide)
      (by decide) (by decide)
  · exact strip_reconstructor_correct.2.2 _ (by decide)

/-- Claim C7: a mesh-split header whose declared section size field reads
12 parses to a result with split count 0 and no splits, whatever bytes
follow the three leading header fields. -/
theorem binmesh_size12_empty (buf : List Nat) (offset : Nat) (a c : Int)
    (h1 : readI32 buf offset = some a)
    (h2 : readI32 buf (offset+4) = some 12)
    (h3 : readI32 buf (offset+8) = some c) :
    parse_binmesh_plg buf offset =
      some { iMaterialSplitCount := 0, binMeshes := [],
             section_size := none, section_offset := none } := by
  unfold parse_binmesh_plg
  rw [h1, h2, h3]
  simp

/-- Witness for C7: a 13-byte buffer with declared size 12 and a trailing
junk byte. -/
theorem binmesh_size12_empty_witness :
    parse_binmesh_plg [14, 5, 0, 0, 12, 0, 0, 0, 0, 0, 0, 0, 99] 0 =
      some { iMaterialSplitCount := 0, binMeshes := [],
             section_size := none, section_offset := none } :=
  binmesh_size12_empty _ 0 1294 0 (by decide) (by decide) (by decide)

/-- Claim C8: vertex decoding reads three signed 16-bit integers and scales
each by exactly `1/128` (the pad bytes are never read, and decoding then
resumes 8 bytes later, so exactly 2 pad bytes are discarded). -/
theorem vertex_decode_scale :
    (∀ (buf : List Nat) (pos : Nat) (x y z : Int),
      readI16 buf pos = some x → readI16 buf (pos+2) = some y →
      readI16 buf (pos+4) = some z →
      readVertex buf pos =
        some { x := (x : Rat) / 128, y := (y : Rat) / 128, z := (z : Rat) / 128 })
    ∧ (∀ (buf : List Nat) (pos k : Nat) (v : Vertex),
      readVertex buf pos = some v →
      readVertsAux buf (k+1) pos = v :: readVertsAux buf k (pos + 8)) := by
  constructor
  · intro buf pos x y z hx hy hz
    exact readVertex_some buf pos x y z hx hy hz
  · intro buf pos k v hv
    simp only [readVertsAux, hv]

/-- Witness for C8: the signed triplet `(256, -128, 0)` decodes to exactly
`(2, -1, 0)`. -/
theorem vertex_decode_scale_witness :
    readVertex c8buf 0 = some { x := 2, y := -1, z := 0 } := by
  rw [vertex_decode_scale.1 c8buf 0 256 (-128) 0 (by decide) (by decide) (by decide)]
  norm_num [Vertex.mk.injEq]

/-- Claim C9: a split whose declared index count is zero or negative
decodes, on a supported vertex entry, to an empty vertex list (the Python
`range` runs no iterations) and hence to zero triangles, with no error. -/
theorem nonpositive_indexcount_empty :
    ∀ (buf : List Nat) (pos : Nat) (n : Int), n ≤ 0 →
      readVerts buf pos n = [] ∧ stripTriangles (readVerts buf pos n) = [] := by
  intro buf pos n hn
  have h0 : n.toNat = 0 := Int.toNat_of_nonpos hn
  constructor <;> simp [readVerts, h0, readVertsAux, stripTriangles, stripGoAux]

/-- Witness for C9 at a declared index count of `-4`. -/
theorem nonpositive_indexcount_empty_witness :
    readVerts [] 0 (-4) = [] ∧ stripTriangles (readVerts [] 0 (-4)) = [] :=
  nonpositive_indexcount_empty [] 0 (-4) (by decide)

/-- Claim C5: whenever a split is processed without error, the cursor
handed to the next split (or the return) is `blockEnd = blockStart +
blockSize`, where `blockStart` is 8 bytes past the split's first field and
`blockSize` is the unsigned 32-bit value read there — independently of how
many bytes the DMA-entry inner loop consumed or how it terminated. -/
theorem split_resync_to_block_end (buf : List Nat) (entry : Option BinMeshEntry)
    (pos : Nat) (ms : MaterialSplit) (pos' : Nat) (ss : Nat)
    (hps : processSplit buf entry pos = .ok (ms, pos'))
    (hss : readU32 buf pos = some ss) :
    pos' = pos + 8 + ss := by
  unfold processSplit at hps
  rw [hss] at hps
  simp only at hps
  split at hps
  · exact absurd hps (by simp)
  · split at hps
    · exact absurd hps (by simp)
    · split at hps
      · exact absurd hps (by simp)
      · simp only [Except.ok.injEq, Prod.mk.injEq] at hps
        exact hps.2.symm

/-- Witness for C5: `goodSplitBuf` declares split size 96 at cursor 0 and
the split's decode ends with the cursor forced to `0 + 8 + 96 = 104`. -/
theorem split_resync_to_block_end_witness :
    processSplit goodSplitBuf (some goodEntry) 0 = .ok (goodMS, 104)
    ∧ (104 : Nat) = 0 + 8 + 96 :=
  ⟨goodSplit_processSplit,
   split_resync_to_block_end goodSplitBuf (some goodEntry) 0 goodMS 104 96
     goodSplit_processSplit (by decide)⟩

lemma c2_dmaLoop : dmaLoop c2buf 5 36 100 none 36 = .error .uncaught := by
  have h8 : readU8 c2buf 39 = some 0 := by decide
  have ha : readU32 c2buf 40 = some 4 := by decide
  have hb : readU32 c2buf 48 = none := by decide
  rw [dmaLoop.eq_def]
  simp only [show (36:Nat)+3 = 39 from rfl, show (36:Nat)+4 = 40 from rfl,
    show (36:Nat)+12 = 48 from rfl, h8, ha, hb]
  norm_num

lemma c2_processSplit :
    processSplit c2buf (some { iIndexCount := 5, iMaterialIndex := 0, VertexIndices := none }) 28 =
      .error .uncaught := by
  have h1 : readU32 c2buf 28 = some 64 := by decide
  have h2 : readU32 c2buf (28+12) = some 4 := by decide
  unfold processSplit
  rw [h1, h2]
  simp only [show (28:Nat)+8 = 36 from rfl, show (36:Nat)+4*16 = 100 from rfl, c2_dmaLoop]

/-- Counterexample to C2 as stated: `c2buf` has the expected structure
marker and platform id, and is truncated inside a DMA entry header (after
the guarded id byte, before the entry's type tag), yet the decoder aborts
with the unnamed `uncaught` error — not one of the two structural errors,
and not a partial result. -/
theorem native_decoder_unnamed_error_counterexample :
    parse_native_data_plg c2buf 0 c2bm = .error .uncaught
    ∧ Err.uncaught ≠ Err.missingStructId ∧ Err.uncaught ≠ Err.unsupportedPlatform := by
  refine ⟨?_, by decide, by decide⟩
  have h0 : readI32 c2buf 0 = some 1296 := by decide
  have h4 : readI32 c2buf (0+4) = some 0 := by decide
  have h8x : readI32 c2buf (0+8) = some 0 := by decide
  have h12 : readI32 c2buf (0+12) = some 1 := by decide
  have h16 : readI32 c2buf (0+16) = some 64 := by decide
  have h20 : readI32 c2buf (0+20) = some 0 := by decide
  have h24 : readU32 c2buf (0+24) = some 4 := by decide
  unfold parse_native_data_plg
  rw [h0, h4, h8x, h12, h16, h20, h24]
  norm_num [c2bm]
  simp only [splitLoop, show (0:Nat)+28 = 28 from rfl]
  norm_num [c2_processSplit]

/-- Claim C2 (amended): the decoder fails with the named `missingStructId`
and `unsupportedPlatform` errors exactly as the claim describes, and a
buffer ending at a DMA entry's guarded id byte is tolerated (the inner
loop stops and returns the vertices seen so far); but truncation at one of
the unguarded multi-byte reads — the split header fields or a DMA entry's
offset/type fields after the id byte — aborts the decode with an unnamed
read error instead of producing a partial result. -/
theorem native_decoder_error_modes :
    (∀ (buf : List Nat) (off : Nat) (bm : BinMeshResult) (a b c m : Int),
      readI32 buf off = some a → readI32 buf (off+4) = some b →
      readI32 buf (off+8) = some c → readI32 buf (off+12) = some m → m ≠ 1 →
      parse_native_data_plg buf off bm = .error .missingStructId)
    ∧ (∀ (buf : List Nat) (off : Nat) (bm : BinMeshResult) (a b c s sv : Int) (p : Nat),
      readI32 buf off = some a → readI32 buf (off+4) = some b →
      readI32 buf (off+8) = some c → readI32 buf (off+12) = some 1 →
      readI32 buf (off+16) = some s → s ≠ 4 → readI32 buf (off+20) = some sv →
      readU32 buf (off+24) = some p → p ≠ 4 →
      parse_native_data_plg buf off bm = .error .unsupportedPlatform)
    ∧ (∀ (buf : List Nat) (ic : Int) (start dEnd : Nat) (vo : Option (List Vertex)) (pos : Nat),
      pos < dEnd → readU8 buf (pos+3) = none →
      dmaLoop buf ic start dEnd vo pos = .ok (vo, pos+3)) := by
  refine ⟨?_, ?_, ?_⟩
  · intro buf off bm a b c m h1 h2 h3 h4 hm
    unfold parse_native_data_plg
    rw [h1, h2, h3, h4]
    simp [hm]
  · intro buf off bm a b c s sv p h1 h2 h3 h4 h5 hs h6 h7 hp
    unfold parse_native_data_plg
    rw [h1, h2, h3, h4, h5, h6, h7]
    simp [hs, hp]
  · intro buf ic start dEnd vo pos hlt h8
    rw [dmaLoop.eq_def]
    rw [dif_pos hlt, h8]

/-- Witness for the amended C2: a wrong structure marker, a wrong platform
id, and an id-byte truncation, each at a concrete input. -/
theorem native_decoder_error_modes_witness :
    parse_native_data_plg [0,0,0,0, 0,0,0,0, 0,0,0,0, 2,0,0,0] 0 c2bm = .error .missingStructId
    ∧ parse_native_data_plg
        [0,0,0,0, 0,0,0,0, 0,0,0,0, 1,0,0,0, 100,0,0,0, 0,0,0,0, 9,0,0,0] 0 c2bm =
        .error .unsupportedPlatform
    ∧ dmaLoop [] 7 0 50 none 0 = .ok (none, 3) :=
  ⟨native_decoder_error_modes.1 _ 0 c2bm 0 0 0 2 (by decide) (by decide) (by decide)
      (by decide) (by decide),
   native_decoder_error_modes.2.1 _ 0 c2bm 0 0 0 100 0 9 (by decide) (by decide)
      (by decide) (by decide) (by decide) (by decide) (by decide) (by decide) (by decide),
   native_decoder_error_modes.2.2 [] 7 0 50 none 0 (by decide) (by decide)⟩

/-- Claim C10: at a DMA entry with id `0x30` whose masked type tag is the
supported vertex encoding, the decoder continues with the vertex list
decoded from that entry's data block regardless of any previously held
list — each matching entry replaces the split's vertex list wholesale
(never appending or merging), so the split's final list is the one from
the last matching entry seen before the loop ends. -/
theorem last_vertex_entry_wins (buf : List Nat) (ic : Int) (start dEnd pos off ty : Nat)
    (hlt : pos < dEnd)
    (h8 : readU8 buf (pos+3) = some 0x30)
    (hoff : readU32 buf (pos+4) = some off)
    (hty : readU32 buf (pos+12) = some ty)
    (hm : ty &&& 0xFF00FFFF = DMATAG_VERTEX_4_INT16) :
    (∀ vo : Option (List Vertex),
      dmaLoop buf ic start dEnd vo pos =
        dmaLoop buf ic start dEnd (some (readVerts buf (start + off*16) ic)) (pos+32))
    ∧ (∀ v1 v2 : Option (List Vertex),
      dmaLoop buf ic start dEnd v1 pos = dmaLoop buf ic start dEnd v2 pos) := by
  have hstep : ∀ vo : Option (List Vertex),
      dmaLoop buf ic start dEnd vo pos =
        dmaLoop buf ic start dEnd (some (readVerts buf (start + off*16) ic)) (pos+32) := by
    intro vo
    conv_lhs => rw [dmaLoop.eq_def]
    rw [dif_pos hlt, h8, hoff, hty]
    simp only [hm]
    norm_num
  exact ⟨hstep, fun v1 v2 => (hstep v1).trans (hstep v2).symm⟩

/-- Witness for C10: at the vertex entry of `goodSplitBuf`, the previously
held lists `some []` and `some goodVerts` lead to identical outcomes. -/
theorem last_vertex_entry_wins_witness :
    dmaLoop goodSplitBuf 3 8 40 (some []) 8 = dmaLoop goodSplitBuf 3 8 40 (some goodVerts) 8 :=
  (last_vertex_entry_wins goodSplitBuf 3 8 40 8 2 0x6D008000 (by decide) (by decide)
    (by decide) (by decide) (by decide)).2 (some []) (some goodVerts)

/-- Claim C6: the vertex list decoded for a split never exceeds the split's
declared index count (clamped at zero for negative declared counts, which
run no loop iterations), and a vertex read running past the end of the
buffer keeps the prefix decoded so far: the list decoded from a truncated
buffer is a prefix of the list the extended buffer would give. -/
theorem decoded_vertices_length_bound :
    (∀ (buf : List Nat) (e : BinMeshEntry) (pos : Nat) (ms : MaterialSplit) (pos' : Nat),
      processSplit buf (some e) pos = .ok (ms, pos') →
      ∀ vs, ms.Vertices = some vs → vs.length ≤ e.iIndexCount.toNat)
    ∧ (∀ (buf ext : List Nat) (pos : Nat) (n : Int),
      ∃ t, readVerts (buf ++ ext) pos n = readVerts buf pos n ++ t) := by
  constructor
  · intro buf e pos ms pos' hps vs hvs
    unfold processSplit at hps
    simp only at hps
    split at hps
    · exact absurd hps (by simp)
    · split at hps
      · exact absurd hps (by simp)
      · split at hps
        · exact absurd hps (by simp)
        · rename_i o1 ss hss o2 dw hdw r vertsOpt snd heq
          simp only [Except.ok.injEq, Prod.mk.injEq] at hps
          obtain ⟨hms, hcur⟩ := hps
          have hmsv : ms.Vertices = vertsOpt := by rw [← hms]
          rw [hmsv] at hvs
          rw [hvs] at heq
          exact dmaLoop_len buf e.iIndexCount (pos+8) (pos+8+dw*16)
            (pos+8+dw*16 - (pos+8)) (pos+8) none (by omega)
            (by intro vs0 hv0; exact absurd hv0 (by simp)) vs snd heq
  · intro buf ext pos n
    exact readVertsAux_extends buf ext n.toNat pos

/-- Witness for C6: the split of `goodSplitBuf` declares 3 indices and
decodes exactly 3 vertices. -/
theorem decoded_vertices_length_bound_witness :
    processSplit goodSplitBuf (some goodEntry) 0 = .ok (goodMS, 104)
    ∧ goodVerts.length ≤ goodEntry.iIndexCount.toNat :=
  ⟨goodSplit_processSplit,
   decoded_vertices_length_bound.1 goodSplitBuf goodEntry 0 goodMS 104
     goodSplit_processSplit goodVerts rfl⟩

/-- Claim C3 (amended): whether a split carries an explicit index list is
decided by the single header-level test `declaredSize = 12 + 8 × splitCount`
(so it is uniform across all splits of one header): `explicitIndices` is
absent exactly when the declared size matches, and otherwise every split
carries a populated (`some`) list read right after its two leading fields.
That list's length equals the split's declared `indexCount` whenever
enough bytes remain (second conjunct), but never exceeds it; on a
truncated buffer the guarded reads keep the prefix read so far instead of
the full declared count (see the counterexample). -/
theorem binmesh_heuristic_amended :
    (∀ (buf : List Nat) (offset : Nat) (r : BinMeshResult),
      parse_binmesh_plg buf offset = some r →
      ∀ m ∈ r.binMeshes,
        (m.VertexIndices = none ↔ r.section_size = some (12 + 8 * r.iMaterialSplitCount))
        ∧ ∀ l, m.VertexIndices = some l → l.length ≤ m.iIndexCount.toNat)
    ∧ (∀ (buf : List Nat) (pos k : Nat), pos + 4 * k ≤ buf.length →
        (readIdxListAux buf k pos).1.length = k) := by
  constructor
  · intro buf offset r h m hm
    unfold parse_binmesh_plg at h
    split at h
    · rename_i o1 o2 o3 sid ssize rwv hsid hssize hrwv
      split at h
      · simp only [Option.some.injEq] at h
        rw [← h] at hm
        exact absurd hm (by simp)
      · split at h
        · rename_i o4 o5 o6 ft sc tfc hft hsc htfc
          split at h
          · rename_i o7 meshes hmeshes
            simp only [Option.some.injEq] at h
            have hbm : r.binMeshes = meshes := by rw [← h]
            have hss : r.section_size = some ssize := by rw [← h]
            have hmc : r.iMaterialSplitCount = sc := by rw [← h]
            rw [hbm] at hm
            have := binMeshLoop_mem buf ssize sc sc.toNat (offset+24) meshes hmeshes m hm
            refine ⟨?_, this.2⟩
            rw [hss, hmc, Option.some.injEq]
            exact this.1
          · exact absurd h (by simp)
        · exact absurd h (by simp)
    · exact absurd h (by simp)
  · intro buf pos k h
    exact readIdxListAux_full buf k pos h

/-- Counterexample to C3 as stated: `c3buf` declares size 36 for a single
split (so explicit indices are read) with `indexCount = 3`, but the buffer
ends after one index value; the parse succeeds and that split's
`explicitIndices` has length 1, not 3. -/
theorem binmesh_truncated_indices_counterexample :
    parse_binmesh_plg c3buf 0 = some c3res ∧ ¬ claimFullIdxLists c3res := by
  constructor
  · decide
  · decide

/-- Witness for the amended C3: the heuristic iff at the parsed split of
`c3buf`, and a full-length index read on an untruncated buffer. -/
theorem binmesh_heuristic_amended_witness :
    (({ iIndexCount := 3, iMaterialIndex := 7, VertexIndices := some [9] } :
        BinMeshEntry).VertexIndices = none ↔
      c3res.section_size = some (12 + 8 * c3res.iMaterialSplitCount))
    ∧ (readIdxListAux [5,0,0,0, 6,0,0,0] 2 0).1.length = 2 :=
  ⟨(binmesh_heuristic_amended.1 c3buf 0 c3res (by decide) _ (by decide)).1,
   binmesh_heuristic_amended.2 [5,0,0,0, 6,0,0,0] 0 2 (by decide)⟩

/-- Claim C4: `find_chunk_positions` returns exactly the ascending
non-overlapping scan of the identifier's 4-byte pattern: the returned
offsets ascend with gaps of at least 4, every returned offset is an
occurrence of the pattern, every occurrence is within 3 bytes after a
returned offset (so the scan resumes at `k+4` after a match at `k` and
skips nothing else), and the result is empty exactly when the pattern
never occurs. These four facts determine the greedy non-overlapping scan
uniquely. -/
theorem find_chunk_positions_correct (buf : List Nat) (id : Int) :
    List.Chain' (fun a b => a + 4 ≤ b) (find_chunk_positions buf id)
    ∧ (∀ k ∈ find_chunk_positions buf id, occursAt (pack_i32le id) buf k)
    ∧ (∀ j, occursAt (pack_i32le id) buf j →
        ∃ k ∈ find_chunk_positions buf id, k ≤ j ∧ j < k + 4)
    ∧ (find_chunk_positions buf id = [] ↔ ∀ j, ¬ occursAt (pack_i32le id) buf j) := by
  have hplen : (pack_i32le id).length = 4 := rfl
  have hp0 : 0 < (pack_i32le id).length := by rw [hplen]; omega
  have hsound : ∀ k ∈ find_chunk_positions buf id, occursAt (pack_i32le id) buf k := by
    intro k hk
    obtain ⟨j, hj, hpre⟩ :=
      scanPat_sound (pack_i32le id) hp0 buf.length buf 0 (le_refl _) k hk
    have : j = k := by omega
    subst this
    exact hpre
  have hcomp : ∀ j, occursAt (pack_i32le id) buf j →
      ∃ k ∈ find_chunk_positions buf id, k ≤ j ∧ j < k + 4 := by
    intro j hocc
    obtain ⟨k, hkmem, hk1, hk2⟩ :=
      scanPat_complete (pack_i32le id) hp0 buf.length buf 0 (le_refl _) j hocc
    rw [hplen] at hk2
    exact ⟨k, hkmem, by omega, by omega⟩
  refine ⟨?_, hsound, hcomp, ?_, ?_⟩
  · have := scanPat_chain (pack_i32le id) buf.length buf 0 (le_refl _)
    rw [hplen] at this
    exact this
  · intro he j hocc
    obtain ⟨k, hkmem, _, _⟩ := hcomp j hocc
    rw [he] at hkmem
    exact absurd hkmem (by simp)
  · intro hno
    cases hscan : find_chunk_positions buf id with
    | nil => rfl
    | cons k ks =>
      have hk : k ∈ find_chunk_positions buf id := by
        rw [hscan]
        exact List.mem_cons_self _ _
      exact absurd (hsound k hk) (hno k)

/-- Witness for C4: in `c4buf` the pattern of id `0x50E` occurs at offset
5, and the locator covers it. -/
theorem find_chunk_positions_correct_witness :
    ∃ k ∈ find_chunk_positions c4buf 1294, k ≤ 5 ∧ 5 < k + 4 :=
  (find_chunk_positions_correct c4buf 1294).2.2.1 5 (by decide)
